import Mathlib

/-!
Shallow embedding of `src/models.rs` (zizmor): the `uses:` reference
parser (`Uses`, `DockerUses`, `RepositoryUses`), `Workflow::from_file`
and `Steps::new`, together with theorems settling the claims about them.

Rust strings are modelled as `List Char` (`Str`); the Rust standard
library string operations used by the source (`starts_with`,
`strip_prefix`, `split_once`, `rsplit_once`, `splitn`, `find`,
`split_at`, `contains`, `len`, `chars`, `is_ascii_hexdigit`) are
embedded below with their documented behaviour.
-/

/-- Rust `&str`, as its sequence of characters. -/
abbrev Str := List Char

/-- Coerce a Lean string literal into the model. -/
def str (s : String) : Str := s.toList

/-- Rust `s.starts_with(p)`. -/
def startsWith (s p : Str) : Bool :=
  match s, p with
  | _, [] => true
  | [], _ :: _ => false
  | c :: s, d :: p => c == d && startsWith s p

/-- Rust `s.split_once(c)`: split at the first occurrence of `c`,
returning the parts before and after it. -/
def splitOnce (c : Char) (s : Str) : Option (Str × Str) :=
  match s with
  | [] => none
  | d :: t =>
    if d = c then some ([], t)
    else (splitOnce c t).map (fun p => (d :: p.1, p.2))

/-- Rust `s.rsplit_once(c)`: split at the last occurrence of `c`. -/
def rsplitOnce (c : Char) (s : Str) : Option (Str × Str) :=
  match s with
  | [] => none
  | d :: t =>
    match rsplitOnce c t with
    | some p => some (d :: p.1, p.2)
    | none => if d = c then some ([], t) else none

/-- Rust `s.splitn(n, c).collect()`: at most `n` pieces, the last piece
keeping any remaining separators. -/
def splitn (n : Nat) (c : Char) (s : Str) : List Str :=
  match n with
  | 0 => []
  | 1 => [s]
  | n + 2 =>
    match splitOnce c s with
    | some p => p.1 :: splitn (n + 1) c p.2
    | none => [s]

/-- Rust `s.find(c)`: index of the first occurrence of `c`. -/
def findChar (c : Char) (s : Str) : Option Nat :=
  List.findIdx? (fun d => d == c) s

/-- Rust `s.len()`: the length of a `&str` in UTF-8 bytes. -/
def utf8Len (s : Str) : Nat := (s.map Char.utf8Size).sum

/-- Rust `char::is_ascii_hexdigit`:
`matches!(c, '0'..='9' | 'A'..='F' | 'a'..='f')`. -/
def isAsciiHexDigit (c : Char) : Bool :=
  ('0' ≤ c && c ≤ '9') || ('A' ≤ c && c ≤ 'F') || ('a' ≤ c && c ≤ 'f')

/-- The contents of a `uses: docker://` step stanza
(`struct DockerUses`, src/models.rs:261). -/
structure DockerUses where
  registry : Option Str
  image : Str
  tag : Option Str
  hash : Option Str
deriving DecidableEq

/-- The contents of a `uses: some/repo` step stanza
(`struct RepositoryUses`, src/models.rs:270). -/
structure RepositoryUses where
  owner : Str
  repo : Str
  subpath : Option Str
  git_ref : Option Str
deriving DecidableEq

/-- `RepositoryUses::ref_is_commit` (src/models.rs:278):
the ref is present, 40 bytes long, and all ASCII hex digits. -/
def RepositoryUses.ref_is_commit (self : RepositoryUses) : Bool :=
  match self.git_ref with
  | some git_ref => utf8Len git_ref == 40 && git_ref.all isAsciiHexDigit
  | none => false

/-- `RepositoryUses::commit_ref` (src/models.rs:285). -/
def RepositoryUses.commit_ref (self : RepositoryUses) : Option Str :=
  match self.git_ref with
  | some git_ref => if self.ref_is_commit then some git_ref else none
  | none => none

/-- `RepositoryUses::symbolic_ref` (src/models.rs:292). -/
def RepositoryUses.symbolic_ref (self : RepositoryUses) : Option Str :=
  match self.git_ref with
  | some git_ref => if !self.ref_is_commit then some git_ref else none
  | none => none

/-- `enum Uses` (src/models.rs:305): a Docker or repository action ref. -/
inductive Uses where
  | Docker : DockerUses → Uses
  | Repository : RepositoryUses → Uses
deriving DecidableEq

namespace Uses

/-- `Uses::is_registry` (src/models.rs:311):
`registry == "localhost" || registry.contains('.') || registry.contains(':')`. -/
def is_registry (registry : Str) : Bool :=
  registry == str "localhost" || registry.contains '.' || registry.contains ':'

/-- The digest/tag stage of `Uses::from_image_ref`
(src/models.rs:327-355), with the already-classified registry threaded
through. Mirrors the source exactly, including the (dead)
`hash.is_empty()` test, which inspects the slice still containing the
leading `@` produced by `split_at`. -/
def imageStage (registry : Option Str) (image : Str) : DockerUses :=
  match findChar '@' image with
  | some at_pos =>
    let image2 := image.take at_pos
    let hash := image.drop at_pos
    let hash := if hash = [] then none else some (hash.drop 1)
    { registry := registry, image := image2, tag := none, hash := hash }
  | none =>
    let it : Str × Option Str :=
      match splitOnce ':' image with
      | some (image, []) => (image, none)
      | some (image, tag) => (image, some tag)
      | none => (image, none)
    { registry := registry, image := it.1, tag := it.2, hash := none }

/-- `Uses::from_image_ref` (src/models.rs:318): parse a Docker image
reference, classifying the part before the first `/` as a registry via
`is_registry` and then extracting digest or tag. -/
def from_image_ref (image : Str) : Option Uses :=
  let ri : Option Str × Str :=
    match splitOnce '/' image with
    | some p => if is_registry p.1 then (some p.1, p.2) else (none, image)
    | none => (none, image)
  some (Uses.Docker (imageStage ri.1 ri.2))

/-- `Uses::from_common` (src/models.rs:358): reject `./` local refs,
dispatch `docker://` refs, otherwise split on the last `@` and then
into at most three `/`-separated components. -/
def from_common (uses : Str) : Option Uses :=
  if startsWith uses (str "./") then none
  else if startsWith uses (str "docker://") then
    from_image_ref (uses.drop (str "docker://").length)
  else
    let pg : Str × Option Str :=
      match rsplitOnce '@' uses with
      | some (path, git_ref) => (path, some git_ref)
      | none => (uses, none)
    match splitn 3 '/' pg.1 with
    | c0 :: c1 :: rest =>
      some (Uses.Repository
        { owner := c0, repo := c1, subpath := rest.head?, git_ref := pg.2 })
    | _ => none

/-- `Uses::from_step` (src/models.rs:387). -/
def from_step (uses : Str) : Option Uses :=
  from_common uses

/-- `Uses::from_reusable` (src/models.rs:395): repository refs only,
and the git ref is mandatory. -/
def from_reusable (uses : Str) : Option RepositoryUses :=
  match from_common uses with
  | some (Uses.Docker _) => none
  | some (Uses.Repository repo) =>
    if repo.git_ref.isNone then none else some repo
  | none => none

/-- `Uses::unpinned` (src/models.rs:411). -/
def unpinned (self : Uses) : Bool :=
  match self with
  | Uses.Docker docker => docker.hash.isNone && docker.tag.isNone
  | Uses.Repository repo => repo.git_ref.isNone

end Uses

/-- Construction-time failures of `Workflow::from_file`
(src/models.rs:34): `ioError` models the `?` on
`std::fs::read_to_string`, `invalidWorkflow` the serde_yaml failure
(context message `invalid GitHub Actions workflow`), `invalidDocument`
the `yamlpath::Document::new` failure, and `invalidPath` the
`invalid workflow: path is not UTF-8` error. -/
inductive WorkflowError where
  | ioError : String → WorkflowError
  | invalidWorkflow : WorkflowError
  | invalidDocument : WorkflowError
  | invalidPath : WorkflowError
deriving DecidableEq

/-- A Rust `&Path` (an OS string): `toStr` models `Path::to_str`
(`none` iff the path is not valid UTF-8) and `fileName` models
`Path::file_name` (`none` iff the path has no filename component,
e.g. it is empty, a root, or ends in `..`). -/
structure RustPath where
  toStr : Option String
  fileName : Option String
deriving DecidableEq

/-- `struct Workflow` (src/models.rs:18), generic over the yamlpath
document type `δ` and the deserialized workflow model type `μ`. -/
structure Workflow (δ μ : Type) where
  path : String
  document : δ
  inner : μ

/-- `Workflow::from_file` (src/models.rs:34). The filesystem and the
two deserializers are oracles: `fs` models `std::fs::read_to_string`,
`parse` models `serde_yaml::from_str`, `newDoc` models
`yamlpath::Document::new`. The stages run in source order: read the
file, deserialize, index, then the `to_str` UTF-8 check; the source
performs no check of the filename component. -/
def Workflow.from_file {δ μ : Type} (fs : RustPath → Except String String)
    (parse : String → Option μ) (newDoc : String → Option δ)
    (p : RustPath) : Except WorkflowError (Workflow δ μ) :=
  match fs p with
  | .error e => .error (.ioError e)
  | .ok contents =>
    match parse contents with
    | none => .error .invalidWorkflow
    | some inner =>
      match newDoc contents with
      | none => .error .invalidDocument
      | some document =>
        match p.toStr with
        | none => .error .invalidPath
        | some s => .ok ⟨s, document, inner⟩

/-- `workflow::job::NormalJob`, reduced to the only field `Steps::new`
reads: its list of steps, with the step type `σ` generic. -/
structure NormalJob (σ : Type) where
  steps : List σ

/-- `workflow::Job`: either a normal job or a reusable workflow call
job (whose payload type `ρ` is generic, as `Steps::new` never reads
it). -/
inductive WJob (σ ρ : Type) where
  | NormalJob : NormalJob σ → WJob σ ρ
  | ReusableWorkflowCallJob : ρ → WJob σ ρ

/-- `Steps::new` (src/models.rs:232): the enumerated steps of a normal
job. The `none` result models the
`panic` (message: `API misuse: can not call steps() on a reusable job`)
on the reusable-call arm, i.e. a process abort, not a recoverable
value; the `some` payload models the `enumerate()`d step iterator. -/
def Steps.new {σ ρ : Type} (job : WJob σ ρ) : Option (List (Nat × σ)) :=
  match job with
  | .ReusableWorkflowCallJob _ => none
  | .NormalJob n => some n.steps.enum

example : Uses.from_step (str "docker://alpine:3.8") =
    some (Uses.Docker ⟨none, str "alpine", some (str "3.8"), none⟩) := by decide

example : Uses.from_step (str "actions/aws/ec2@8f4b7f84864484a7bf31766abe9204da3cbe65b3") =
    some (Uses.Repository ⟨str "actions", str "aws", some (str "ec2"),
      some (str "8f4b7f84864484a7bf31766abe9204da3cbe65b3")⟩) := by decide

theorem splitOnce_eq_none {c : Char} {s : Str} :
    splitOnce c s = none ↔ c ∉ s := by
  induction s with
  | nil => simp [splitOnce]
  | cons d t ih =>
    by_cases hd : d = c
    · subst hd; simp [splitOnce]
    · simp [splitOnce, hd, Option.map_eq_none', ih, Ne.symm hd]

theorem splitOnce_append {c : Char} {l r : Str} (h : c ∉ l) :
    splitOnce c (l ++ c :: r) = some (l, r) := by
  induction l with
  | nil => simp [splitOnce]
  | cons d t ih =>
    have hd : d ≠ c := fun e => h (e ▸ List.mem_cons_self d t)
    have ht : c ∉ t := fun e => h (List.mem_cons_of_mem d e)
    simp [splitOnce, hd, ih ht]

theorem rsplitOnce_eq_none {c : Char} {s : Str} :
    rsplitOnce c s = none ↔ c ∉ s := by
  induction s with
  | nil => simp [rsplitOnce]
  | cons d t ih =>
    by_cases hd : d = c
    · subst hd
      simp only [rsplitOnce]
      cases h : rsplitOnce d t <;> simp
    · simp only [rsplitOnce]
      cases h : rsplitOnce c t with
      | some p => simp [h] at ih; simp [ih, Ne.symm hd]
      | none => simp [h] at ih; simp [hd, ih, Ne.symm hd]

theorem rsplitOnce_append {c : Char} {l r : Str} (h : c ∉ r) :
    rsplitOnce c (l ++ c :: r) = some (l, r) := by
  induction l with
  | nil =>
    simp only [List.nil_append, rsplitOnce]
    rw [(rsplitOnce_eq_none).mpr h]
    simp
  | cons d t ih => simp only [List.cons_append, rsplitOnce, List.append_eq, ih]

theorem splitn_no_sep {n : Nat} {c : Char} {a : Str} (h : c ∉ a) :
    splitn (n + 1) c a = [a] := by
  cases n with
  | zero => rfl
  | succ m => simp [splitn, splitOnce_eq_none.mpr h]

theorem splitn_three_two {c : Char} {a b : Str} (h1 : c ∉ a) (h2 : c ∉ b) :
    splitn 3 c (a ++ c :: b) = [a, b] := by
  simp [splitn, splitOnce_append h1, splitOnce_eq_none.mpr h2]

theorem splitn_three_full {c : Char} {a b rest : Str} (h1 : c ∉ a) (h2 : c ∉ b) :
    splitn 3 c (a ++ c :: (b ++ c :: rest)) = [a, b, rest] := by
  simp [splitn, splitOnce_append h1, splitOnce_append h2]

theorem startsWith_append_self (p s : Str) : startsWith (p ++ s) p = true := by
  induction p with
  | nil => cases s <;> rfl
  | cons d t ih => simp [startsWith, ih]

theorem from_common_of_at {s p g : Str}
    (h1 : startsWith s (str "./") = false)
    (h2 : startsWith s (str "docker://") = false)
    (h3 : rsplitOnce '@' s = some (p, g)) :
    Uses.from_common s =
      (match splitn 3 '/' p with
       | c0 :: c1 :: rest =>
         some (Uses.Repository ⟨c0, c1, rest.head?, some g⟩)
       | _ => none) := by
  simp only [Uses.from_common, h1, h2, h3, Bool.false_eq_true, if_false]

theorem from_common_no_at {s : Str}
    (h1 : startsWith s (str "./") = false)
    (h2 : startsWith s (str "docker://") = false)
    (h3 : rsplitOnce '@' s = none) :
    Uses.from_common s =
      (match splitn 3 '/' s with
       | c0 :: c1 :: rest =>
         some (Uses.Repository ⟨c0, c1, rest.head?, none⟩)
       | _ => none) := by
  simp only [Uses.from_common, h1, h2, h3, Bool.false_eq_true, if_false]

theorem utf8Size_eq_one_of_hex {c : Char} (h : isAsciiHexDigit c = true) :
    c.utf8Size = 1 := by
  have hv : c.val.toBitVec.toNat ≤ 102 := by
    simp only [isAsciiHexDigit, Bool.or_eq_true, Bool.and_eq_true,
      decide_eq_true_eq] at h
    rcases h with (⟨_, h2⟩ | ⟨_, h2⟩) | ⟨_, h2⟩ <;>
      rw [Char.le_def, UInt32.le_def, BitVec.le_def] at h2
    · rw [show ('9' : Char).val.toBitVec.toNat = 57 from rfl] at h2; omega
    · rw [show ('F' : Char).val.toBitVec.toNat = 70 from rfl] at h2; omega
    · rw [show ('f' : Char).val.toBitVec.toNat = 102 from rfl] at h2; omega
  unfold Char.utf8Size
  rw [if_pos]
  rw [UInt32.le_def, BitVec.le_def]
  change _ ≤ (127 : BitVec 32).toNat
  rw [show ((127 : BitVec 32)).toNat = 127 from rfl]
  omega

theorem utf8Len_eq_length {s : Str}
    (h : ∀ c ∈ s, isAsciiHexDigit c = true) : utf8Len s = s.length := by
  induction s with
  | nil => rfl
  | cons d t ih =>
    have hd := utf8Size_eq_one_of_hex (h d (List.mem_cons_self d t))
    have ht := ih (fun c hc => h c (List.mem_cons_of_mem d hc))
    simp only [utf8Len, List.map_cons, List.sum_cons, hd, List.length_cons]
    simp only [utf8Len] at ht
    omega

/-- C3: for every Repository reference, `ref_is_commit` returns true if
and only if `git_ref` is present, has length exactly 40, and every
character of it is an ASCII hexadecimal digit; and every input of the
form `owner/repo@<40-hex-chars>` parses to a Repository reference with
that `git_ref` and `ref_is_commit` true. -/
theorem claim_c3 :
    (∀ u : RepositoryUses, u.ref_is_commit = true ↔
      ∃ r, u.git_ref = some r ∧ r.length = 40 ∧ ∀ c ∈ r, isAsciiHexDigit c = true)
  ∧ (∀ owner repo gref : Str,
      startsWith (owner ++ '/' :: (repo ++ '@' :: gref)) (str "./") = false →
      startsWith (owner ++ '/' :: (repo ++ '@' :: gref)) (str "docker://") = false →
      '/' ∉ owner → '/' ∉ repo → '@' ∉ gref →
      gref.length = 40 → (∀ c ∈ gref, isAsciiHexDigit c = true) →
      Uses.from_step (owner ++ '/' :: (repo ++ '@' :: gref)) =
          some (Uses.Repository ⟨owner, repo, none, some gref⟩) ∧
        RepositoryUses.ref_is_commit ⟨owner, repo, none, some gref⟩ = true) := by
  constructor
  · intro u
    obtain ⟨o, rp, sp, gr⟩ := u
    cases gr with
    | none =>
      simp [RepositoryUses.ref_is_commit]
    | some g =>
      simp only [RepositoryUses.ref_is_commit]
      constructor
      · intro h
        rw [Bool.and_eq_true] at h
        obtain ⟨h40, hall⟩ := h
        have hall' : ∀ c ∈ g, isAsciiHexDigit c = true := List.all_eq_true.mp hall
        refine ⟨g, rfl, ?_, hall'⟩
        rw [← utf8Len_eq_length hall']
        exact beq_iff_eq.mp h40
      · rintro ⟨r, hr, h40, hall⟩
        obtain rfl : g = r := Option.some_inj.mp hr
        rw [Bool.and_eq_true]
        refine ⟨?_, List.all_eq_true.mpr hall⟩
        rw [utf8Len_eq_length hall, h40]
        rfl
  · intro owner repo gref h1 h2 ho hr hg h40 hall
    have hs : owner ++ '/' :: (repo ++ '@' :: gref) =
        (owner ++ '/' :: repo) ++ '@' :: gref := by simp
    have h3 : rsplitOnce '@' (owner ++ '/' :: (repo ++ '@' :: gref)) =
        some (owner ++ '/' :: repo, gref) := by
      rw [hs]; exact rsplitOnce_append hg
    constructor
    · rw [Uses.from_step, from_common_of_at h1 h2 h3, splitn_three_two ho hr]
      rfl
    · simp only [RepositoryUses.ref_is_commit]
      rw [Bool.and_eq_true]
      refine ⟨?_, List.all_eq_true.mpr hall⟩
      rw [utf8Len_eq_length hall, h40]
      rfl

/-- Witness for C3 at the pinned-commit test vector. -/
theorem claim_c3_witness :
    Uses.from_step (str "actions/checkout@8f4b7f84864484a7bf31766abe9204da3cbe65b3") =
        some (Uses.Repository ⟨str "actions", str "checkout", none,
          some (str "8f4b7f84864484a7bf31766abe9204da3cbe65b3")⟩) ∧
      RepositoryUses.ref_is_commit ⟨str "actions", str "checkout", none,
        some (str "8f4b7f84864484a7bf31766abe9204da3cbe65b3")⟩ = true := by
  have h := claim_c3.2 (str "actions") (str "checkout")
    (str "8f4b7f84864484a7bf31766abe9204da3cbe65b3")
    (by decide) (by decide) (by decide) (by decide) (by decide) (by decide)
    (by decide)
  exact h

/-- C5: for inputs that start with neither `./` nor `docker://`, the
parser splits on the last `@` (path left, git ref right, absent when
there is no `@`), then splits the path on `/` into at most three
components via `splitn 3`; fewer than two components yields no
reference, otherwise owner is the first component, repo the second and
subpath the remainder (absent without a third component). The last
three conjuncts characterise `splitn 3` on separator-free components,
so that e.g. `example/foo/bar/baz/quux` splits into owner `example`,
repo `foo` and subpath `bar/baz/quux`. -/
theorem claim_c5 :
    (∀ s p g : Str,
      startsWith s (str "./") = false →
      startsWith s (str "docker://") = false →
      s = p ++ '@' :: g → '@' ∉ g →
      Uses.from_step s =
        (match splitn 3 '/' p with
         | c0 :: c1 :: rest =>
           some (Uses.Repository ⟨c0, c1, rest.head?, some g⟩)
         | _ => none))
  ∧ (∀ s : Str,
      startsWith s (str "./") = false →
      startsWith s (str "docker://") = false → '@' ∉ s →
      Uses.from_step s =
        (match splitn 3 '/' s with
         | c0 :: c1 :: rest =>
           some (Uses.Repository ⟨c0, c1, rest.head?, none⟩)
         | _ => none))
  ∧ (∀ a : Str, '/' ∉ a → splitn 3 '/' a = [a])
  ∧ (∀ a b : Str, '/' ∉ a → '/' ∉ b → splitn 3 '/' (a ++ '/' :: b) = [a, b])
  ∧ (∀ a b rest : Str, '/' ∉ a → '/' ∉ b →
      splitn 3 '/' (a ++ '/' :: (b ++ '/' :: rest)) = [a, b, rest]) := by
  refine ⟨?_, ?_, ?_, ?_, ?_⟩
  · intro s p g h1 h2 hs hg
    subst hs
    exact from_common_of_at h1 h2 (rsplitOnce_append hg)
  · intro s h1 h2 hs
    exact from_common_no_at h1 h2 (rsplitOnce_eq_none.mpr hs)
  · intro a h
    exact splitn_no_sep h
  · intro a b h1 h2
    exact splitn_three_two h1 h2
  · intro a b rest h1 h2
    exact splitn_three_full h1 h2

/-- Witness for C5 at the complex-subpath example from the spec. -/
theorem claim_c5_witness :
    Uses.from_step
        (str "example/foo/bar/baz/quux@8f4b7f84864484a7bf31766abe9204da3cbe65b3") =
      some (Uses.Repository ⟨str "example", str "foo", some (str "bar/baz/quux"),
        some (str "8f4b7f84864484a7bf31766abe9204da3cbe65b3")⟩) := by
  have h := claim_c5.1
    (str "example/foo/bar/baz/quux@8f4b7f84864484a7bf31766abe9204da3cbe65b3")
    (str "example/foo/bar/baz/quux")
    (str "8f4b7f84864484a7bf31766abe9204da3cbe65b3")
    (by decide) (by decide) (by decide) (by decide)
  exact h.trans (by decide)

/-- C6: every input starting with `./` yields no reference from the
step-level parser (never an error), and so does every input whose path
part before the final `@` lacks a second component, such as
`checkout@<hash>`. -/
theorem claim_c6 :
    (∀ s : Str, startsWith s (str "./") = true → Uses.from_step s = none)
  ∧ (∀ p g : Str, '/' ∉ p → '@' ∉ g →
      startsWith (p ++ '@' :: g) (str "./") = false →
      startsWith (p ++ '@' :: g) (str "docker://") = false →
      Uses.from_step (p ++ '@' :: g) = none) := by
  constructor
  · intro s h
    simp [Uses.from_step, Uses.from_common, h]
  · intro p g hp hg h1 h2
    rw [Uses.from_step, from_common_of_at h1 h2 (rsplitOnce_append hg),
      splitn_no_sep hp]

/-- Witness for C6 at the two rejected test vectors. -/
theorem claim_c6_witness :
    Uses.from_step
        (str "./.github/actions/hello-world-action@172239021f7ba04fe7327647b213799853a9eb89") =
      none ∧
    Uses.from_step (str "checkout@8f4b7f84864484a7bf31766abe9204da3cbe65b3") = none := by
  constructor
  · exact claim_c6.1 _ (by decide)
  · exact claim_c6.2 (str "checkout")
      (str "8f4b7f84864484a7bf31766abe9204da3cbe65b3")
      (by decide) (by decide) (by decide) (by decide)

/-- C8: `unpinned` returns true iff the value is a Docker reference
with both tag and hash absent, or a Repository reference with
`git_ref` absent; in particular `owner/repo` with no `@` parses with
`git_ref` absent and is unpinned. -/
theorem claim_c8 :
    (∀ u : Uses, u.unpinned = true ↔
      (match u with
       | Uses.Docker d => d.tag = none ∧ d.hash = none
       | Uses.Repository r => r.git_ref = none))
  ∧ (∀ a b : Str,
      startsWith (a ++ '/' :: b) (str "./") = false →
      startsWith (a ++ '/' :: b) (str "docker://") = false →
      '/' ∉ a → '/' ∉ b → '@' ∉ a → '@' ∉ b →
      Uses.from_step (a ++ '/' :: b) =
          some (Uses.Repository ⟨a, b, none, none⟩) ∧
        Uses.unpinned (Uses.Repository ⟨a, b, none, none⟩) = true) := by
  constructor
  · intro u
    cases u with
    | Docker d =>
      simp only [Uses.unpinned, Bool.and_eq_true, Option.isNone_iff_eq_none]
      exact and_comm
    | Repository r =>
      simp only [Uses.unpinned, Option.isNone_iff_eq_none]
  · intro a b h1 h2 ha hb ha' hb'
    have hno : '@' ∉ a ++ '/' :: b := by
      simp only [List.mem_append, List.mem_cons]
      rintro (h | h | h)
      · exact ha' h
      · exact absurd h (by decide)
      · exact hb' h
    constructor
    · rw [Uses.from_step, from_common_no_at h1 h2 (rsplitOnce_eq_none.mpr hno),
        splitn_three_two ha hb]
      rfl
    · rfl

/-- Witness for C8 at the unpinned `actions/checkout` example. -/
theorem claim_c8_witness :
    Uses.from_step (str "actions/checkout") =
        some (Uses.Repository ⟨str "actions", str "checkout", none, none⟩) ∧
      Uses.unpinned (Uses.Repository ⟨str "actions", str "checkout", none, none⟩) =
        true := by
  exact claim_c8.2 (str "actions") (str "checkout")
    (by decide) (by decide) (by decide) (by decide) (by decide) (by decide)

/-- The digest/tag stage never alters the registry it is handed. -/
theorem imageStage_registry (reg : Option Str) (img : Str) :
    (Uses.imageStage reg img).registry = reg := by
  unfold Uses.imageStage
  cases findChar '@' img with
  | some n => rfl
  | none =>
    cases h : splitOnce ':' img with
    | none => rfl
    | some p =>
      obtain ⟨i, t⟩ := p
      cases t <;> rfl

/-- C4: for every string beginning with `docker://`, after stripping
the prefix the parser splits once on `/`, and the left part is the
registry iff `is_registry` holds of it (it equals `localhost`,
contains `.`, or contains `:`); otherwise the registry field is absent
and the whole remaining string is handed to the digest/tag stage as
the image path. -/
theorem claim_c4 (s : Str) :
    Uses.from_step (str "docker://" ++ s) =
      some (Uses.Docker
        (match splitOnce '/' s with
         | some p =>
           if Uses.is_registry p.1 then Uses.imageStage (some p.1) p.2
           else Uses.imageStage none s
         | none => Uses.imageStage none s)) ∧
    (∀ d : DockerUses,
      Uses.from_step (str "docker://" ++ s) = some (Uses.Docker d) →
      ((∃ l r : Str, splitOnce '/' s = some (l, r) ∧ Uses.is_registry l = true ∧
          d.registry = some l) ∨
        (d.registry = none ∧
          ∀ l r : Str, splitOnce '/' s = some (l, r) →
            Uses.is_registry l = false))) := by
  have h1 : startsWith (str "docker://" ++ s) (str "./") = false := rfl
  have h2 : startsWith (str "docker://" ++ s) (str "docker://") = true :=
    startsWith_append_self _ _
  have hdrop : (str "docker://" ++ s).drop (str "docker://").length = s :=
    List.drop_left _ _
  have key : Uses.from_step (str "docker://" ++ s) =
      some (Uses.Docker
        (match splitOnce '/' s with
         | some p =>
           if Uses.is_registry p.1 then Uses.imageStage (some p.1) p.2
           else Uses.imageStage none s
         | none => Uses.imageStage none s)) := by
    simp only [Uses.from_step, Uses.from_common, h1, h2, Bool.false_eq_true,
      if_false, if_true, hdrop, Uses.from_image_ref]
    cases h : splitOnce '/' s with
    | none => rfl
    | some p =>
      by_cases hr : Uses.is_registry p.1 = true
      · simp [hr]
      · simp only [Bool.not_eq_true] at hr
        simp [hr]
  refine ⟨key, ?_⟩
  intro d hd
  rw [key] at hd
  have h9 := Option.some_inj.mp hd
  injection h9 with h10
  subst h10
  cases h : splitOnce '/' s with
  | none =>
    right
    refine ⟨?_, ?_⟩
    · exact imageStage_registry none s
    · intro l r hlr
      exact absurd hlr (by simp)
  | some p =>
    obtain ⟨l, r⟩ := p
    by_cases hr : Uses.is_registry l = true
    · left
      refine ⟨l, r, rfl, hr, ?_⟩
      show (if Uses.is_registry l = true then Uses.imageStage (some l) r
        else Uses.imageStage none s).registry = some l
      rw [if_pos hr, imageStage_registry]
    · right
      refine ⟨?_, ?_⟩
      · show (if Uses.is_registry l = true then Uses.imageStage (some l) r
          else Uses.imageStage none s).registry = none
        rw [if_neg hr, imageStage_registry]
      · intro l' r' hlr
        have hll : l' = l := by
          have := Option.some_inj.mp hlr
          exact congrArg Prod.fst this.symm
        rw [hll]
        simp only [Bool.not_eq_true] at hr
        exact hr

/-- Witness for C4 at the custom-registry and implicit-registry examples. -/
theorem claim_c4_witness :
    Uses.from_step (str "docker://ghcr.io/foo/alpine:3.8") =
        some (Uses.Docker ⟨some (str "ghcr.io"), str "foo/alpine",
          some (str "3.8"), none⟩) ∧
      Uses.from_step (str "docker://alpine:3.8") =
        some (Uses.Docker ⟨none, str "alpine", some (str "3.8"), none⟩) ∧
      ((∃ l r : Str, splitOnce '/' (str "ghcr.io/foo/alpine:3.8") = some (l, r) ∧
          Uses.is_registry l = true ∧
          (DockerUses.mk (some (str "ghcr.io")) (str "foo/alpine")
            (some (str "3.8")) none).registry = some l) ∨
        ((DockerUses.mk (some (str "ghcr.io")) (str "foo/alpine")
            (some (str "3.8")) none).registry = none ∧
          ∀ l r : Str, splitOnce '/' (str "ghcr.io/foo/alpine:3.8") = some (l, r) →
            Uses.is_registry l = false)) := by
  refine ⟨?_, ?_, ?_⟩
  · exact (claim_c4 (str "ghcr.io/foo/alpine:3.8")).1.trans (by decide)
  · exact (claim_c4 (str "alpine:3.8")).1.trans (by decide)
  · exact (claim_c4 (str "ghcr.io/foo/alpine:3.8")).2
      ⟨some (str "ghcr.io"), str "foo/alpine", some (str "3.8"), none⟩
      ((claim_c4 (str "ghcr.io/foo/alpine:3.8")).1.trans (by decide))

/-- C7: the reusable-workflow entry point returns no reference
whenever the generic parse is Docker-shaped or is a Repository
reference without a `git_ref`; on every other Repository result it
returns that exact reference, so everything it returns has `git_ref`
present. -/
theorem claim_c7 (s : Str) :
    ((∃ d : DockerUses, Uses.from_common s = some (Uses.Docker d)) →
      Uses.from_reusable s = none) ∧
    (∀ r : RepositoryUses, Uses.from_common s = some (Uses.Repository r) →
      r.git_ref = none → Uses.from_reusable s = none) ∧
    (∀ r : RepositoryUses, Uses.from_common s = some (Uses.Repository r) →
      r.git_ref ≠ none → Uses.from_reusable s = some r) ∧
    (∀ r : RepositoryUses, Uses.from_reusable s = some r →
      r.git_ref ≠ none) := by
  refine ⟨?_, ?_, ?_, ?_⟩
  · rintro ⟨d, hd⟩
    simp [Uses.from_reusable, hd]
  · intro r hr hg
    simp [Uses.from_reusable, hr, Option.isNone_iff_eq_none, hg]
  · intro r hr hg
    simp [Uses.from_reusable, hr, Option.isNone_iff_eq_none, hg]
  · intro r hr
    unfold Uses.from_reusable at hr
    cases hc : Uses.from_common s with
    | none => rw [hc] at hr; exact absurd hr (by simp)
    | some u =>
      cases u with
      | Docker d => rw [hc] at hr; exact absurd hr (by simp)
      | Repository r' =>
        simp only [hc] at hr
        by_cases hg : r'.git_ref.isNone
        · rw [if_pos hg] at hr
          exact absurd hr (by simp)
        · rw [if_neg hg] at hr
          obtain rfl : r' = r := Option.some_inj.mp hr
          simpa [Option.isNone_iff_eq_none] using hg

/-- Witness for C7 at a Docker input, an unpinned repository input and a pinned one. -/
theorem claim_c7_witness :
    Uses.from_reusable (str "docker://alpine:3.8") = none ∧
    Uses.from_reusable (str "octo-org/this-repo/.github/workflows/workflow-1.yml") =
      none ∧
    Uses.from_reusable (str "actions/checkout@v4") =
      some ⟨str "actions", str "checkout", none, some (str "v4")⟩ := by
  refine ⟨?_, ?_, ?_⟩
  · exact (claim_c7 (str "docker://alpine:3.8")).1
      ⟨⟨none, str "alpine", some (str "3.8"), none⟩, by decide⟩
  · exact (claim_c7 (str "octo-org/this-repo/.github/workflows/workflow-1.yml")).2.1
      ⟨str "octo-org", str "this-repo",
        some (str ".github/workflows/workflow-1.yml"), none⟩
      (by decide) rfl
  · exact (claim_c7 (str "actions/checkout@v4")).2.2.1
      ⟨str "actions", str "checkout", none, some (str "v4")⟩
      (by decide) (by simp)

/-- C9: invoking step enumeration on a reusable-call job is a fatal
contract violation (the `none` result models the panic), never a
recoverable result and never an empty list; step enumeration succeeds
exactly on normal jobs. -/
theorem claim_c9 {σ ρ : Type} (j : WJob σ ρ) :
    (∀ r : ρ, j = WJob.ReusableWorkflowCallJob r → Steps.new j = none) ∧
    (∀ n : NormalJob σ, j = WJob.NormalJob n →
      Steps.new j = some n.steps.enum) ∧
    ((∃ l, Steps.new j = some l) ↔ ∃ n, j = WJob.NormalJob n) := by
  cases j with
  | NormalJob n =>
    refine ⟨?_, ?_, ?_⟩
    · intro r hr; exact absurd hr (by simp)
    · intro n' hn
      obtain rfl : n = n' := by injection hn
      rfl
    · simp [Steps.new]
  | ReusableWorkflowCallJob r =>
    refine ⟨?_, ?_, ?_⟩
    · intro r' _; rfl
    · intro n hn; exact absurd hn (by simp)
    · simp [Steps.new]

/-- Witness for C9 at a concrete reusable-call job and a concrete normal job. -/
theorem claim_c9_witness :
    Steps.new (WJob.ReusableWorkflowCallJob () : WJob Nat Unit) = none ∧
    Steps.new (WJob.NormalJob ⟨[5]⟩ : WJob Nat Unit) = some [(0, 5)] := by
  constructor
  · exact (claim_c9 (WJob.ReusableWorkflowCallJob () : WJob Nat Unit)).1 () rfl
  · exact (claim_c9 (WJob.NormalJob ⟨[5]⟩ : WJob Nat Unit)).2.1 ⟨[5]⟩ rfl

/-- C10: `commit_ref` is `some` exactly when `git_ref` is present and
`ref_is_commit` holds, `symbolic_ref` is `some` exactly when `git_ref`
is present and `ref_is_commit` fails, in each case returning `git_ref`
itself; the two are never both `some`, and exactly one is `some`
whenever `git_ref` is present. -/
theorem claim_c10 (u : RepositoryUses) :
    (∀ g : Str, u.commit_ref = some g ↔
      (u.git_ref = some g ∧ u.ref_is_commit = true)) ∧
    (∀ g : Str, u.symbolic_ref = some g ↔
      (u.git_ref = some g ∧ u.ref_is_commit = false)) ∧
    ¬(u.commit_ref.isSome = true ∧ u.symbolic_ref.isSome = true) ∧
    (u.git_ref.isSome = true →
      (u.commit_ref.isSome = true ↔ ¬u.symbolic_ref.isSome = true)) := by
  obtain ⟨o, rp, sp, gr⟩ := u
  cases gr with
  | none =>
    refine ⟨?_, ?_, ?_, ?_⟩
    · intro g; simp [RepositoryUses.commit_ref]
    · intro g; simp [RepositoryUses.symbolic_ref]
    · simp [RepositoryUses.commit_ref, RepositoryUses.symbolic_ref]
    · intro h; exact absurd h (by simp)
  | some g0 =>
    by_cases hc :
        (RepositoryUses.mk o rp sp (some g0)).ref_is_commit = true
    · refine ⟨?_, ?_, ?_, ?_⟩
      · intro g
        simp [RepositoryUses.commit_ref, hc]
      · intro g
        simp [RepositoryUses.symbolic_ref, hc]
      · simp [RepositoryUses.commit_ref, RepositoryUses.symbolic_ref, hc]
      · intro _
        simp [RepositoryUses.commit_ref, RepositoryUses.symbolic_ref, hc]
    · have hc' : (RepositoryUses.mk o rp sp (some g0)).ref_is_commit = false :=
        by simpa using hc
      refine ⟨?_, ?_, ?_, ?_⟩
      · intro g
        simp [RepositoryUses.commit_ref, hc']
      · intro g
        simp [RepositoryUses.symbolic_ref, hc']
      · simp [RepositoryUses.commit_ref, RepositoryUses.symbolic_ref, hc']
      · intro _
        simp [RepositoryUses.commit_ref, RepositoryUses.symbolic_ref, hc']

/-- Witness for C10 at a branch-pinned reference. -/
theorem claim_c10_witness :
    ((RepositoryUses.mk (str "actions") (str "checkout") none
        (some (str "v4"))).symbolic_ref = some (str "v4")) ∧
    ((RepositoryUses.mk (str "actions") (str "checkout") none
        (some (str "v4"))).commit_ref.isSome = true ↔
      ¬(RepositoryUses.mk (str "actions") (str "checkout") none
          (some (str "v4"))).symbolic_ref.isSome = true) := by
  constructor
  · exact ((claim_c10 ⟨str "actions", str "checkout", none,
      some (str "v4")⟩).2.1 (str "v4")).mpr ⟨rfl, by decide⟩
  · exact (claim_c10 ⟨str "actions", str "checkout", none,
      some (str "v4")⟩).2.2.2 (by decide)

/-- C2 (amended): `Workflow::from_file` fails with the typed
`invalidPath` error exactly when the file is read and both
deserialization steps succeed but the path is not valid UTF-8; the
characterisation does not involve the filename component, because the
source checks only UTF-8 validity at construction time. -/
theorem claim_c2 {δ μ : Type} (fs : RustPath → Except String String)
    (parse : String → Option μ) (newDoc : String → Option δ) (p : RustPath) :
    Workflow.from_file fs parse newDoc p =
        Except.error WorkflowError.invalidPath ↔
      ∃ c, fs p = Except.ok c ∧ (parse c).isSome = true ∧
        (newDoc c).isSome = true ∧ p.toStr = none := by
  unfold Workflow.from_file
  cases hfs : fs p with
  | error e => simp [hfs]
  | ok c =>
    cases hp : parse c with
    | none => simp [hp]
    | some i =>
      cases hd : newDoc c with
      | none => simp [hp, hd]
      | some d =>
        cases hts : p.toStr with
        | none => simp [hp, hd, hts]
        | some s0 => simp [hp, hd, hts]

/-- Witness for C2 (amended): a non-UTF-8 path with a filename, on a
readable and deserializable file, fails with `invalidPath`. -/
theorem claim_c2_witness :
    @Workflow.from_file Unit Unit (fun _ => Except.ok "jobs:")
        (fun _ => some ()) (fun _ => some ()) ⟨none, some "ci.yml"⟩ =
      Except.error WorkflowError.invalidPath :=
  (claim_c2 _ _ _ _).mpr ⟨"jobs:", rfl, rfl, rfl, rfl⟩

/-- C2 counterexample: on the path `..`, which is valid UTF-8 but has
no filename component, construction never returns the `invalidPath`
failure: with a filesystem that refuses the read it propagates the
read error, and with a filesystem that returns contents it constructs
a `Workflow` outright. -/
theorem claim_c2_counterexample :
    @Workflow.from_file Unit Unit (fun _ => Except.error "is a directory")
        (fun _ => some ()) (fun _ => some ()) ⟨some "..", none⟩ =
      Except.error (WorkflowError.ioError "is a directory") ∧
    @Workflow.from_file Unit Unit (fun _ => Except.ok "jobs:")
        (fun _ => some ()) (fun _ => some ()) ⟨some "..", none⟩ =
      Except.ok ⟨"..", (), ()⟩ := by
  exact ⟨rfl, rfl⟩

/-- C1: evaluating the parser at `docker://alpine@` (empty text after
the `@`) yields a digest of `some \"\"` (the empty string), not an
absent digest: the emptiness test in the source inspects the slice
that still contains the `@`, so it never fires. -/
theorem claim_c1_code_bug :
    Uses.from_step (str "docker://alpine@") =
      some (Uses.Docker ⟨none, str "alpine", none, some []⟩) := by
  decide
